import Mathlib

/-
Shallow embedding of the DALI IPX-over-UDP driver:
  - dali/ipx.c      (socket table, send path, listen path, API dispatcher)
  - dali/dbipx.cpp  (transport session: registration handshake, receive callback)

Machine integers are modelled as Nat; byte arrays and wire datagrams as
List Nat (each element one byte).  The 16-bit network-byte-order fields
(handled by htons/ntohs in the source) are modelled by an explicit
big-endian byte codec where the wire layout matters, and as plain host
numbers in the in-memory structures.
-/

/-- An IPX address (ipx.h struct ipx_address): a 4-byte network number, a
6-byte node address and a 16-bit socket number.  The socket is stored as
its host-order value; the wire codec below lays it out big-endian. -/
structure ipx_address where
  network : List Nat
  node : List Nat
  socket : Nat
deriving Repr, DecidableEq

/-- An IPX packet header (ipx.h struct ipx_header), 30 bytes on the wire. -/
structure ipx_header where
  checksum : Nat
  length : Nat
  transport_control : Nat
  type : Nat
  dest : ipx_address
  src : ipx_address
deriving Repr, DecidableEq

/-- Big-endian (network byte order) layout of a 16-bit value, as htons
stores it in memory on the little-endian source target. -/
def u16be (n : Nat) : List Nat :=
  [n / 256 % 256, n % 256]

/-- Read a 16-bit big-endian field at offset i of a datagram (the ntohs of
a wire u16); out-of-range bytes read as 0. -/
def read_u16be (d : List Nat) (i : Nat) : Nat :=
  d.getD i 0 * 256 + d.getD (i + 1) 0

/-- Memory/wire layout of an ipx_address: network bytes, node bytes, then
the socket number big-endian (12 bytes for a well-formed address). -/
def encode_address (a : ipx_address) : List Nat :=
  a.network ++ a.node ++ u16be a.socket

/-- Memory/wire layout of an ipx_header (30 bytes for well-formed
addresses): checksum, length, transport_control, type, dest, src. -/
def encode_header (h : ipx_header) : List Nat :=
  u16be h.checksum ++ u16be h.length ++ [h.transport_control % 256, h.type % 256] ++
    encode_address h.dest ++ encode_address h.src

/-- Decode the ipx_address starting at byte offset off of a datagram. -/
def decode_address (d : List Nat) (off : Nat) : ipx_address :=
  { network := (d.drop off).take 4
    node := (d.drop (off + 4)).take 6
    socket := read_u16be d (off + 10) }

/-- Decode the ipx_header at the start of a datagram (the source casts the
datagram start to struct ipx_header and reads fields through ntohs). -/
def decode_header (d : List Nat) : ipx_header :=
  { checksum := read_u16be d 0
    length := read_u16be d 2
    transport_control := d.getD 4 0
    type := d.getD 5 0
    dest := decode_address d 6
    src := decode_address d 18 }

/-- MTU (ipx.c): maximum total size the send path will transmit. -/
def MTU : Nat := 576

/-- MAX_OPEN_SOCKETS (ipx.c): capacity of the socket table. -/
def MAX_OPEN_SOCKETS : Nat := 8

/-- REG_ATTEMPTS (dbipx.cpp): retry rounds of the registration handshake. -/
def REG_ATTEMPTS : Nat := 5

/-- An event control block (ipx.h struct ipx_ecb).  Each fragment is
modelled by the byte contents of the caller buffer it points at, so the
fragment size is the list length; the next_ecb link that threads the
receive queue through ECBs is represented by position in the queue list. -/
structure ipx_ecb where
  in_use : Bool
  completion_code : Nat
  socket : Nat
  fragments : List (List Nat)
deriving Repr, DecidableEq

/-- A socket-table slot (ipx.c struct ipx_socket): socket number 0 marks a
free slot; ecbs is the posted-receive queue, head = most recently posted. -/
structure ipx_socket where
  socket : Nat
  ecbs : List ipx_ecb
deriving Repr, DecidableEq

/-- FindSocket (ipx.c): index of the first slot whose number equals num,
scanning the table in order. -/
def FindSocket : List ipx_socket → Nat → Option Nat
  | [], _ => none
  | s :: rest, num =>
      if s.socket = num then some 0 else (FindSocket rest num).map (· + 1)

/-- Result of OpenSocket (ipx.c): ax = 0 with the assigned number in dx,
ax = 0xff (socket already open), or ax = 0xfe (no free slot). -/
inductive openResult where
  | ok (num : Nat)
  | duplicateSocket
  | tableFull
deriving Repr, DecidableEq

/-- The auto-assignment probe of OpenSocket (ipx.c), the loop
while (FindSocket(socknum) != NULL) ++socknum; written with explicit
fuel.  OpenSocket supplies fuel length+1, which the termination lemmas
below show is never exhausted, so the fuel-0 fallback is unreachable. -/
def ProbeSocknum (tbl : List ipx_socket) : Nat → Nat → Nat
  | 0, n => n
  | fuel + 1, n =>
      if (FindSocket tbl n).isSome then ProbeSocknum tbl fuel (n + 1) else n

/-- OpenSocket (ipx.c).  requested is the host-order requested socket
number (ntohs(ip.w.dx)); 0 requests auto-assignment starting at 0x4002.
Returns the updated table and the result code. -/
def OpenSocket (tbl : List ipx_socket) (requested : Nat) :
    List ipx_socket × openResult :=
  let socknum := if requested = 0 then ProbeSocknum tbl (tbl.length + 1) 0x4002
                 else requested
  if (FindSocket tbl socknum).isSome then
    (tbl, openResult.duplicateSocket)
  else
    match FindSocket tbl 0 with
    | none => (tbl, openResult.tableFull)
    | some i => (tbl.set i ⟨socknum, []⟩, openResult.ok socknum)

/-- CloseSocket (ipx.c): no-op on number 0 or an unknown number; otherwise
clears the slot number but leaves the queued ECBs linked in the slot (they
are only reset by the next OpenSocket reusing the slot). -/
def CloseSocket (tbl : List ipx_socket) (num : Nat) : List ipx_socket :=
  if num = 0 then tbl
  else
    match FindSocket tbl num with
    | none => tbl
    | some i => tbl.set i { tbl.getD i ⟨0, []⟩ with socket := 0 }

/-- Overwrite bytes of buf starting at position pos with repl.  The result
is clipped to buf.length: the source writes into the 576-byte sendbuf and
then transmits exactly size bytes of it, so patch bytes falling at or past
the transmitted size never reach the wire. -/
def writeBytes (buf : List Nat) (pos : Nat) (repl : List Nat) : List Nat :=
  (buf.take pos ++ repl ++ buf.drop (pos + repl.length)).take buf.length

/-- The value of SendPacket's size accumulator as the program sees it: the
source sums the unsigned-short fragment sizes in a 16-bit C int (the
target is 16-bit real-mode DOS - far pointers, MK_FP, interrupt handlers -
where int is 16 bits), so the total is reduced mod 2^16 and read back as a
two's complement signed value. -/
def int16_of (n : Nat) : Int :=
  if n % 65536 < 32768 then ((n % 65536 : Nat) : Int) else ((n % 65536 : Nat) : Int) - 65536

/-- SendPacket (ipx.c): sum the fragment sizes - accumulated in a 16-bit
int, so the size > MTU comparison sees int16_of of the true total; if that
signed value exceeds MTU, complete the ECB with code 0xff (too large),
in_use = 0, and transmit nothing.  Otherwise concatenate the fragments in
order into the send buffer, overwrite the header src address (offset 18)
with the local address carrying the caller's socket number, overwrite the
header length (offset 2) with the 16-bit total, transmit the buffer once
via DBIPX_SendPacket with length equal to the total reduced mod 2^16, and
complete the ECB with code 0, in_use = 0.  A true total of 32768..65535
makes the signed accumulator negative and bypasses the MTU check; in that
case the source's copy loop also writes past the 576-byte sendbuf
(undefined behavior), so no theorem below relies on the transmitted bytes
of a wrapped send - only on the check outcome, the completion fields and
the single transmission.  Returns the updated ECB, the return code, and
the list of transmitted datagrams. -/
def SendPacket (local_addr : ipx_address) (ecb : ipx_ecb) :
    ipx_ecb × Nat × List (List Nat) :=
  let size := int16_of (ecb.fragments.map List.length).sum
  if size > (MTU : Int) then
    ({ ecb with in_use := false, completion_code := 0xff }, 0xff, [])
  else
    let buf0 := ecb.fragments.flatten
    let buf1 := writeBytes buf0 18 (encode_address { local_addr with socket := ecb.socket })
    let buf2 := writeBytes buf1 2 (u16be ((ecb.fragments.map List.length).sum % 65536))
    ({ ecb with in_use := false, completion_code := 0 }, 0,
     [buf2.take ((ecb.fragments.map List.length).sum % 65536)])

/-- ListenPacket (ipx.c): look up the ECB's socket number; if not open,
set completion_code = 0xff and return 0xff without touching in_use or any
queue; if open, link the ECB at the head of that socket's queue, set
in_use = 1, and return 0.  The source does not write completion_code on
the success path.  Returns the updated table, the ECB as the caller now
sees it, and the return code. -/
def ListenPacket (tbl : List ipx_socket) (ecb : ipx_ecb) :
    List ipx_socket × ipx_ecb × Nat :=
  match FindSocket tbl ecb.socket with
  | none => (tbl, { ecb with completion_code := 0xff }, 0xff)
  | some i =>
      let e := { ecb with in_use := true }
      let si := tbl.getD i ⟨0, []⟩
      (tbl.set i { si with ecbs := e :: si.ecbs }, e, 0)

/-- Fill posted fragment buffers from a payload, in fragment order, each
buffer receiving up to its capacity; the tail of a partially filled buffer
keeps its previous contents. -/
def fillFragments : List (List Nat) → List Nat → List (List Nat)
  | [], _ => []
  | f :: rest, payload =>
      (payload.take f.length ++ f.drop payload.length) ::
        fillFragments rest (payload.drop f.length)

/-- Modelled from the spec: the Receive Queue Deliver operation (spec 4.3).
The receive dispatch that completes a posted ECB from an inbound data
packet is not present in the repository sources: ipx.c never registers a
receive callback with DBIPX_SetCallback and its data-receive path is a
TODO, so this operation is modelled from the spec's words: look up the
socket (number 0 never denotes an open socket); if not open or its queue
is empty, return false with nothing changed; otherwise pop the ECB at the
front of the queue, copy the payload into its fragment buffers in order,
set completion code Success (0) and in_use = false, and return true.
Returns the updated table, the completed ECB if any, and the flag. -/
def Deliver (tbl : List ipx_socket) (socknum : Nat) (payload : List Nat) :
    List ipx_socket × Option ipx_ecb × Bool :=
  if socknum = 0 then (tbl, none, false)
  else
    match FindSocket tbl socknum with
    | none => (tbl, none, false)
    | some i =>
        match (tbl.getD i ⟨0, []⟩).ecbs with
        | [] => (tbl, none, false)
        | e :: rest =>
            let e2 := { e with fragments := fillFragments e.fragments payload, completion_code := 0, in_use := false }
            (tbl.set i { tbl.getD i ⟨0, []⟩ with ecbs := rest }, some e2, true)

/-- Modelled from the spec: Receive Dispatch (spec 4.5), the body of the
receive callback that the repository sources never install: extract the
header's dest.socket and call Deliver with the datagram; a false result
means the packet is dropped silently. -/
def RxDispatch (tbl : List ipx_socket) (dgram : List Nat) :
    List ipx_socket × Option ipx_ecb :=
  let r := Deliver tbl (decode_header dgram).dest.socket dgram
  (r.1, r.2.1)

/-- The engine state touched by the receive path: the dbipx.cpp session
variables (registered, dbipx_local_addr) and the ipx.c socket table the
dispatched packets deliver into. -/
structure EngineState where
  registered : Bool
  local_addr : ipx_address
  sockets : List ipx_socket
deriving Repr, DecidableEq

/-- PacketReceived (dbipx.cpp): drop a datagram shorter than the 30-byte
header; otherwise, if the header has src.socket = 2 and dest.socket = 2,
take it as a registration reply (set registered and copy the whole dest
address into dbipx_local_addr) - the source applies this branch without
consulting the current registered flag; otherwise hand the packet to the
receive callback (modelled by RxDispatch, with the completed ECB going
back to caller-owned memory rather than engine state). -/
def PacketReceived (st : EngineState) (dgram : List Nat) : EngineState :=
  if dgram.length < 30 then st
  else
    let hdr := decode_header dgram
    if hdr.src.socket = 2 ∧ hdr.dest.socket = 2 then
      { st with registered := true, local_addr := hdr.dest }
    else
      { st with sockets := (RxDispatch st.sockets dgram).1 }

/-- SendRegistration (dbipx.cpp): the registration control packet - header
zeroed by memset, then dest.socket = src.socket = htons 2,
checksum = htons 0xffff, length = htons 0x1e, transport_control = 0,
type = 0xff - sent as one UDP datagram to the configured server address
and port.  Returns the destination (address, port) and the wire bytes. -/
def registration_header : ipx_header :=
  { checksum := 0xffff
    length := 0x1e
    transport_control := 0
    type := 0xff
    dest := { network := [0, 0, 0, 0], node := [0, 0, 0, 0, 0, 0], socket := 2 }
    src := { network := [0, 0, 0, 0], node := [0, 0, 0, 0, 0, 0], socket := 2 } }

def SendRegistration (server : List Nat) (port : Nat) :
    (List Nat × Nat) × List Nat :=
  ((server, port), encode_header registration_header)

/-- Outcome of DBIPX_Connect: success, or the fatal
Error("No response from server at %d.%d.%d.%d:%d", ...) naming the
resolved server address and the port. -/
inductive connectOutcome where
  | ok
  | fatal (server : List Nat) (port : Nat)
deriving Repr, DecidableEq

/-- Delay polling (dbipx.cpp Delay calling DBIPX_Poll each tick): true iff
already registered or a registration-pattern datagram is observed during
one of the ticks [start, start+len).  env t abstracts the transport: it
holds when a datagram with src.socket = 2 and dest.socket = 2 is processed
by PacketReceived during tick t, which sets registered (see
PacketReceived above). -/
def pollDelay (env : Nat → Bool) : Nat → Nat → Bool → Bool
  | _, 0, reg => reg
  | start, len + 1, reg => pollDelay env (start + 1) len (reg || env start)

/-- The registration retry loop of DBIPX_Connect (dbipx.cpp):
for (i = 0; !registered && i < REG_ATTEMPTS*tps; ++i) - each iteration is
one timer tick, SendRegistration runs when i % tps = 0, then Delay(1)
polls tick number tps + i (ticks 0..tps-1 belong to the initial
Delay(tps)).  fuel is the remaining iteration budget.  Returns the final
registered flag and the number of SendRegistration calls. -/
def connectLoop (env : Nat → Bool) (tps : Nat) :
    Nat → Nat → Bool → Nat → Bool × Nat
  | 0, _, reg, sends => (reg, sends)
  | fuel + 1, i, reg, sends =>
      if reg then (reg, sends)
      else
        let sends' := if i % tps = 0 then sends + 1 else sends
        connectLoop env tps fuel (i + 1) (reg || env (tps + i)) sends'

/-- The registration handshake of DBIPX_Connect (dbipx.cpp), after address
resolution and callback registration: registered = 0; Delay(tps) polling
ticks 0..tps-1 with no send; then the retry loop of REG_ATTEMPTS*tps tick
iterations; if still unregistered, the fatal error naming the server
address and port.  tps is TIMER_TICKS_PER_SEC (ticks per time unit);
env t tells whether a registration reply is observed while polling during
tick t.  Returns the outcome and the number of transmitted registration
packets. -/
def DBIPX_Connect (server : List Nat) (port : Nat) (tps : Nat)
    (env : Nat → Bool) : connectOutcome × Nat :=
  let reg0 := pollDelay env 0 tps false
  let r := connectLoop env tps (REG_ATTEMPTS * tps) 0 reg0 0
  (if r.1 then connectOutcome.ok else connectOutcome.fatal server port, r.2)

/-- The socket table at startup: MAX_OPEN_SOCKETS free slots (the source
table is static, hence zero-initialized). -/
def initTbl : List ipx_socket := List.replicate MAX_OPEN_SOCKETS ⟨0, []⟩

/-- A fully occupied socket table: 8 distinct open sockets numbered 1..8. -/
def fullTbl : List ipx_socket :=
  [⟨1, []⟩, ⟨2, []⟩, ⟨3, []⟩, ⟨4, []⟩, ⟨5, []⟩, ⟨6, []⟩, ⟨7, []⟩, ⟨8, []⟩]

/-- A concrete engine state that is already registered, with a known local
address, used by the concrete instantiations below. -/
def exampleState : EngineState :=
  { registered := true
    local_addr := { network := [0, 0, 0, 0], node := [1, 1, 1, 1, 1, 1], socket := 2 }
    sockets := initTbl }

/-- A concrete 30-byte registration-pattern datagram (src.socket = 2,
dest.socket = 2) whose dest node [9,9,9,9,9,9] differs from exampleState's
local address. -/
def exampleRegReply : List Nat :=
  [0xff, 0xff, 0, 30, 0, 0xff,
   0, 0, 0, 0, 9, 9, 9, 9, 9, 9, 0, 2,
   0, 0, 0, 0, 0, 0, 0, 0, 0, 0, 0, 2]

/-- Concrete receive ECBs posted to socket 1, for listen/deliver scenarios. -/
def listenEcbA : ipx_ecb :=
  { in_use := false, completion_code := 0, socket := 1, fragments := [[0, 0, 0]] }

def listenEcbB : ipx_ecb :=
  { in_use := false, completion_code := 0, socket := 1, fragments := [[0, 0, 0, 0]] }

/-- A concrete inbound payload. -/
def examplePayload : List Nat := [7, 8, 9]

/-- A concrete well-formed local address (4-byte network, 6-byte node). -/
def exampleLocal : ipx_address :=
  { network := [1, 2, 3, 4], node := [5, 6, 7, 8, 9, 10], socket := 0 }

/-- A concrete send ECB with two fragments totalling 3 bytes. -/
def exampleSendEcb : ipx_ecb :=
  { in_use := true, completion_code := 7, socket := 0x4002, fragments := [[1, 2], [3]] }

/-- A concrete send ECB with one fragment of declared size 40000: its true
fragment-length total exceeds the MTU, but the 16-bit size accumulator
wraps to the negative value -25536, so the source's MTU check passes. -/
def overflowEcb : ipx_ecb :=
  { in_use := true, completion_code := 7, socket := 2, fragments := [List.replicate 40000 0] }

/-
Helper lemmas about the embedded operations.
-/

theorem FindSocket_lt_length :
    ∀ (tbl : List ipx_socket) (num i : Nat), FindSocket tbl num = some i → i < tbl.length := by
  intro tbl
  induction tbl with
  | nil => intro num i h; simp [FindSocket] at h
  | cons s rest ih =>
      intro num i h
      simp only [FindSocket] at h
      by_cases hs : s.socket = num
      · rw [if_pos hs] at h
        simp at h
        simp only [List.length_cons]
        omega
      · rw [if_neg hs] at h
        rcases Option.map_eq_some'.mp h with ⟨j, hj, rfl⟩
        have := ih num j hj
        simp only [List.length_cons]
        omega

theorem FindSocket_getD :
    ∀ (tbl : List ipx_socket) (num i : Nat), FindSocket tbl num = some i →
      (tbl.getD i ⟨0, []⟩).socket = num := by
  intro tbl
  induction tbl with
  | nil => intro num i h; simp [FindSocket] at h
  | cons s rest ih =>
      intro num i h
      simp only [FindSocket] at h
      by_cases hs : s.socket = num
      · rw [if_pos hs] at h
        simp at h
        subst h
        simpa using hs
      · rw [if_neg hs] at h
        rcases Option.map_eq_some'.mp h with ⟨j, hj, rfl⟩
        simpa using ih num j hj

theorem FindSocket_none_iff (num : Nat) :
    ∀ tbl : List ipx_socket, FindSocket tbl num = none ↔ ∀ s ∈ tbl, s.socket ≠ num := by
  intro tbl
  induction tbl with
  | nil => simp [FindSocket]
  | cons s rest ih =>
      simp only [FindSocket]
      by_cases hs : s.socket = num
      · rw [if_pos hs]
        simp [hs]
      · rw [if_neg hs]
        simp [Option.map_eq_none', ih, hs]

theorem FindSocket_set_preserve :
    ∀ (tbl : List ipx_socket) (i : Nat) (x : ipx_socket) (num : Nat),
      x.socket = (tbl.getD i ⟨0, []⟩).socket →
      FindSocket (tbl.set i x) num = FindSocket tbl num := by
  intro tbl
  induction tbl with
  | nil => intro i x num _; rfl
  | cons s rest ih =>
      intro i x num hx
      cases i with
      | zero =>
          have hx2 : x.socket = s.socket := by simpa using hx
          simp only [List.set, FindSocket]
          rw [hx2]
      | succ j =>
          have hx2 : x.socket = (rest.getD j ⟨0, []⟩).socket := by simpa using hx
          simp only [List.set, FindSocket]
          rw [ih j x num hx2]

theorem getD_set_self {α : Type} (l : List α) (i : Nat) (x d : α) (h : i < l.length) :
    (l.set i x).getD i d = x := by
  rw [List.getD_eq_getElem?_getD, List.getElem?_set_self h]
  rfl

theorem ProbeSocknum_spec (tbl : List ipx_socket) :
    ∀ (fuel n : Nat), (∃ k, k < fuel ∧ FindSocket tbl (n + k) = none) →
      FindSocket tbl (ProbeSocknum tbl fuel n) = none ∧
      n ≤ ProbeSocknum tbl fuel n ∧
      ∀ m, n ≤ m → m < ProbeSocknum tbl fuel n → FindSocket tbl m ≠ none := by
  intro fuel
  induction fuel with
  | zero => intro n h; rcases h with ⟨k, hk, _⟩; omega
  | succ f ih =>
      intro n h
      by_cases hn : FindSocket tbl n = none
      · simp only [ProbeSocknum]
        rw [if_neg (by simp [hn])]
        exact ⟨hn, Nat.le_refl n, fun m h1 h2 => by omega⟩
      · rcases h with ⟨k, hk, hfree⟩
        have hk0 : k ≠ 0 := by
          intro h0
          subst h0
          simp at hfree
          exact hn hfree
        have hnext : ∃ k2, k2 < f ∧ FindSocket tbl (n + 1 + k2) = none := by
          refine ⟨k - 1, by omega, ?_⟩
          have : n + 1 + (k - 1) = n + k := by omega
          rw [this]
          exact hfree
        have hres := ih (n + 1) hnext
        simp only [ProbeSocknum]
        rw [if_pos (by simp [Option.isSome_iff_ne_none]; exact hn)]
        refine ⟨hres.1, by omega, ?_⟩
        intro m h1 h2
        by_cases hm : m = n
        · subst hm; exact hn
        · exact hres.2.2 m (by omega) h2

theorem probe_window_free (tbl : List ipx_socket) (c : Nat) :
    ∃ k, k < tbl.length + 1 ∧ FindSocket tbl (c + k) = none := by
  by_contra hcon
  push_neg at hcon
  have hsub : ((List.range (tbl.length + 1)).map (c + ·)) ⊆ tbl.map (fun s => s.socket) := by
    intro x hx
    rcases List.mem_map.mp hx with ⟨k, hk, rfl⟩
    have hk2 : k < tbl.length + 1 := List.mem_range.mp hk
    have hne := hcon k hk2
    have : ¬ (∀ s ∈ tbl, s.socket ≠ c + k) := fun hall => hne ((FindSocket_none_iff (c + k) tbl).mpr hall)
    push_neg at this
    rcases this with ⟨s, hs, hsock⟩
    exact List.mem_map.mpr ⟨s, hs, hsock⟩
  have hnd : ((List.range (tbl.length + 1)).map (c + ·)).Nodup :=
    (List.nodup_range _).map (fun a b hab => by omega)
  have hle := (hnd.subperm hsub).length_le
  simp at hle

theorem writeBytes_length (buf repl : List Nat) (pos : Nat) :
    (writeBytes buf pos repl).length = buf.length := by
  unfold writeBytes
  rw [List.length_take]
  simp only [List.length_append, List.length_take, List.length_drop]
  omega

theorem writeBytes_getD_of_le (buf repl : List Nat) (pos k : Nat)
    (h : pos + repl.length ≤ k) :
    (writeBytes buf pos repl).getD k 0 = buf.getD k 0 := by
  rcases Nat.lt_or_ge k buf.length with hk | hk
  · have hpos : pos < buf.length := by omega
    unfold writeBytes
    rw [List.getD_eq_getElem?_getD, List.getD_eq_getElem?_getD,
        List.getElem?_take_of_lt hk]
    rw [List.getElem?_append_right (by simp only [List.length_append, List.length_take]; omega)]
    rw [List.getElem?_drop]
    have hidx : pos + repl.length + (k - (List.take pos buf ++ repl).length) = k := by
      simp only [List.length_append, List.length_take, Nat.min_eq_left hpos.le]
      omega
    rw [hidx]
  · have h1 : (writeBytes buf pos repl).length ≤ k := by
      rw [writeBytes_length]; exact hk
    rw [List.getD_eq_default _ _ h1, List.getD_eq_default _ _ hk]

theorem pollDelay_eq_true_iff (env : Nat → Bool) :
    ∀ (len start : Nat) (reg : Bool),
      pollDelay env start len reg = true ↔
        reg = true ∨ ∃ k, k < len ∧ env (start + k) = true := by
  intro len
  induction len with
  | zero => intro start reg; simp [pollDelay]
  | succ n ih =>
      intro start reg
      simp only [pollDelay]
      rw [ih]
      constructor
      · rintro (hr | ⟨k, hk, he⟩)
        · rcases Bool.or_eq_true .. |>.mp hr with h | h
          · exact Or.inl h
          · exact Or.inr ⟨0, by omega, by simpa using h⟩
        · refine Or.inr ⟨k + 1, by omega, ?_⟩
          have : start + (k + 1) = start + 1 + k := by omega
          rw [this]
          exact he
      · rintro (hr | ⟨k, hk, he⟩)
        · exact Or.inl (by simp [hr])
        · cases k with
          | zero => exact Or.inl (by simp at he; simp [he])
          | succ k2 =>
              refine Or.inr ⟨k2, by omega, ?_⟩
              have : start + 1 + k2 = start + (k2 + 1) := by omega
              rw [this]
              exact he

theorem connectLoop_fst_iff (env : Nat → Bool) (tps : Nat) :
    ∀ (fuel i : Nat) (reg : Bool) (s : Nat),
      (connectLoop env tps fuel i reg s).1 = true ↔
        reg = true ∨ ∃ k, k < fuel ∧ env (tps + i + k) = true := by
  intro fuel
  induction fuel with
  | zero => intro i reg s; simp [connectLoop]
  | succ f ih =>
      intro i reg s
      cases reg with
      | true => simp [connectLoop]
      | false =>
          simp only [connectLoop, if_neg (Bool.false_ne_true), Bool.false_or]
          rw [ih]
          constructor
          · rintro (hr | ⟨k, hk, he⟩)
            · exact Or.inr ⟨0, by omega, by simpa using hr⟩
            · refine Or.inr ⟨k + 1, by omega, ?_⟩
              have : tps + i + (k + 1) = tps + (i + 1) + k := by omega
              rw [this]
              exact he
          · rintro (hr | ⟨k, hk, he⟩)
            · exact absurd hr (by simp)
            · cases k with
              | zero => exact Or.inl (by simpa using he)
              | succ k2 =>
                  refine Or.inr ⟨k2, by omega, ?_⟩
                  have : tps + (i + 1) + k2 = tps + i + (k2 + 1) := by omega
                  rw [this]
                  exact he

theorem countP_congr_own (p q : Nat → Bool) :
    ∀ l : List Nat, (∀ a, a ∈ l → p a = q a) → l.countP p = l.countP q := by
  intro l
  induction l with
  | nil => intro _; simp
  | cons a rest ih =>
      intro h
      rw [List.countP_cons, List.countP_cons, h a (by simp),
          ih (fun b hb => h b (by simp [hb]))]

theorem countP_range_mul (tps : Nat) (htps : 0 < tps) :
    ∀ n : Nat, (List.range (n * tps)).countP (fun k => decide (k % tps = 0)) = n := by
  intro n
  induction n with
  | zero => simp
  | succ m ih =>
      have hsplit : (m + 1) * tps = m * tps + tps := by ring
      rw [hsplit, List.range_add, List.countP_append, ih, List.countP_map]
      have hone : (List.range tps).countP ((fun k => decide (k % tps = 0)) ∘ (m * tps + ·)) = 1 := by
        have hcongr : (List.range tps).countP ((fun k => decide (k % tps = 0)) ∘ (m * tps + ·)) =
            (List.range tps).countP (fun k => decide (k = 0)) := by
          apply countP_congr_own
          intro a ha
          have ha2 : a < tps := List.mem_range.mp ha
          simp only [Function.comp]
          rw [Nat.mul_comm, Nat.mul_add_mod, Nat.mod_eq_of_lt ha2]
        rw [hcongr]
        obtain ⟨t, rfl⟩ : ∃ t, tps = t + 1 := ⟨tps - 1, by omega⟩
        rw [List.range_succ_eq_map, List.countP_cons, List.countP_map]
        have hz : (List.range t).countP ((fun k => decide (k = 0)) ∘ Nat.succ) = 0 := by
          rw [List.countP_eq_zero]
          intro a _
          simp [Function.comp]
        rw [hz]
        simp
      rw [hone]

theorem connectLoop_sends_le (env : Nat → Bool) (tps : Nat) :
    ∀ (fuel i : Nat) (reg : Bool) (s : Nat),
      (connectLoop env tps fuel i reg s).2 ≤
        s + (List.range fuel).countP (fun k => decide ((i + k) % tps = 0)) := by
  intro fuel
  induction fuel with
  | zero => intro i reg s; simp [connectLoop]
  | succ f ih =>
      intro i reg s
      cases reg with
      | true => simp [connectLoop]
      | false =>
          simp only [connectLoop, if_neg (Bool.false_ne_true), Bool.false_or]
          have hcount : (List.range (f + 1)).countP (fun k => decide ((i + k) % tps = 0)) =
              (if i % tps = 0 then 1 else 0) +
                (List.range f).countP (fun k => decide ((i + 1 + k) % tps = 0)) := by
            rw [List.range_succ_eq_map, List.countP_cons, List.countP_map]
            have hshift : (List.range f).countP ((fun k => decide ((i + k) % tps = 0)) ∘ Nat.succ) =
                (List.range f).countP (fun k => decide ((i + 1 + k) % tps = 0)) := by
              apply countP_congr_own
              intro a _
              simp only [Function.comp]
              have : i + Nat.succ a = i + 1 + a := by omega
              rw [this]
            rw [hshift]
            have : (decide ((i + 0) % tps = 0)) = (decide (i % tps = 0)) := by
              simp
            by_cases hi : i % tps = 0
            · simp [hi]
              omega
            · simp [hi]
          rw [hcount]
          by_cases hi : i % tps = 0
          · rw [if_pos hi]
            have := ih (i + 1) (env (tps + i)) (s + 1)
            simp only [if_pos hi] at this ⊢
            omega
          · rw [if_neg hi]
            have := ih (i + 1) (env (tps + i)) s
            simp only [if_neg hi] at this ⊢
            omega

theorem connectLoop_env_false (env : Nat → Bool) (tps : Nat) :
    ∀ (fuel i s : Nat), (∀ k, k < fuel → env (tps + i + k) = false) →
      connectLoop env tps fuel i false s =
        (false, s + (List.range fuel).countP (fun k => decide ((i + k) % tps = 0))) := by
  intro fuel
  induction fuel with
  | zero => intro i s _; simp [connectLoop]
  | succ f ih =>
      intro i s henv
      simp only [connectLoop, if_neg (Bool.false_ne_true), Bool.false_or]
      have henv0 : env (tps + i) = false := by
        have := henv 0 (by omega)
        simpa using this
      rw [henv0]
      have hrest : ∀ k, k < f → env (tps + (i + 1) + k) = false := by
        intro k hk
        have := henv (k + 1) (by omega)
        have harith : tps + i + (k + 1) = tps + (i + 1) + k := by omega
        rw [harith] at this
        exact this
      rw [ih (i + 1) (if i % tps = 0 then s + 1 else s) hrest]
      have hcount : (List.range (f + 1)).countP (fun k => decide ((i + k) % tps = 0)) =
          (if i % tps = 0 then 1 else 0) +
            (List.range f).countP (fun k => decide ((i + 1 + k) % tps = 0)) := by
        rw [List.range_succ_eq_map, List.countP_cons, List.countP_map]
        have hshift : (List.range f).countP ((fun k => decide ((i + k) % tps = 0)) ∘ Nat.succ) =
            (List.range f).countP (fun k => decide ((i + 1 + k) % tps = 0)) := by
          apply countP_congr_own
          intro a _
          simp only [Function.comp]
          have : i + Nat.succ a = i + 1 + a := by omega
          rw [this]
        rw [hshift]
        by_cases hi : i % tps = 0
        · simp [hi]
          omega
        · simp [hi]
      rw [hcount]
      by_cases hi : i % tps = 0
      · simp only [if_pos hi, Prod.mk.injEq]
        exact ⟨trivial, by omega⟩
      · simp only [if_neg hi, Prod.mk.injEq]
        exact ⟨trivial, by omega⟩

theorem OpenSocket_cases (tbl : List ipx_socket) (req : Nat) :
    (∃ n i, FindSocket tbl 0 = some i ∧
        OpenSocket tbl req = (tbl.set i ⟨n, []⟩, openResult.ok n)) ∨
    OpenSocket tbl req = (tbl, openResult.duplicateSocket) ∨
    OpenSocket tbl req = (tbl, openResult.tableFull) := by
  cases hfs : FindSocket tbl 0 with
  | none =>
      simp only [OpenSocket, hfs]
      split
      · split
        · right; left; rfl
        · right; right; rfl
      · split
        · right; left; rfl
        · right; right; rfl
  | some i =>
      simp only [OpenSocket, hfs]
      split
      · split
        · right; left; rfl
        · left; exact ⟨_, i, rfl, rfl⟩
      · split
        · right; left; rfl
        · left; exact ⟨_, i, rfl, rfl⟩

theorem ListenPacket_eq_none (tbl : List ipx_socket) (ecb : ipx_ecb)
    (h : FindSocket tbl ecb.socket = none) :
    ListenPacket tbl ecb = (tbl, { ecb with completion_code := 0xff }, 0xff) := by
  simp only [ListenPacket, h]

theorem ListenPacket_eq_some (tbl : List ipx_socket) (ecb : ipx_ecb) (i : Nat)
    (h : FindSocket tbl ecb.socket = some i) :
    ListenPacket tbl ecb =
      (tbl.set i { tbl.getD i ⟨0, []⟩ with
         ecbs := { ecb with in_use := true } :: (tbl.getD i ⟨0, []⟩).ecbs },
       { ecb with in_use := true }, 0) := by
  simp only [ListenPacket, h]

theorem Deliver_eq_zero (tbl : List ipx_socket) (sock : Nat) (payload : List Nat)
    (h0 : sock = 0) : Deliver tbl sock payload = (tbl, none, false) := by
  simp only [Deliver, if_pos h0]

theorem Deliver_eq_notfound (tbl : List ipx_socket) (sock : Nat) (payload : List Nat)
    (h0 : ¬ sock = 0) (h : FindSocket tbl sock = none) :
    Deliver tbl sock payload = (tbl, none, false) := by
  simp only [Deliver, if_neg h0, h]

theorem Deliver_eq_empty (tbl : List ipx_socket) (sock : Nat) (payload : List Nat) (i : Nat)
    (h0 : ¬ sock = 0) (h : FindSocket tbl sock = some i)
    (hq : (tbl.getD i ⟨0, []⟩).ecbs = []) :
    Deliver tbl sock payload = (tbl, none, false) := by
  simp only [Deliver, if_neg h0, h, hq]

theorem Deliver_eq_pop (tbl : List ipx_socket) (sock : Nat) (payload : List Nat)
    (i : Nat) (e : ipx_ecb) (rest : List ipx_ecb)
    (h0 : ¬ sock = 0) (h : FindSocket tbl sock = some i)
    (hq : (tbl.getD i ⟨0, []⟩).ecbs = e :: rest) :
    Deliver tbl sock payload =
      (tbl.set i { tbl.getD i ⟨0, []⟩ with ecbs := rest },
       some { e with fragments := fillFragments e.fragments payload, completion_code := 0, in_use := false },
       true) := by
  simp only [Deliver, if_neg h0, h, hq]

theorem SendPacket_eq_of_gt (local_addr : ipx_address) (ecb : ipx_ecb)
    (h : int16_of (ecb.fragments.map List.length).sum > (MTU : Int)) :
    SendPacket local_addr ecb = ({ ecb with in_use := false, completion_code := 0xff }, 0xff, []) := by
  simp only [SendPacket, if_pos h]

theorem SendPacket_eq_of_le (local_addr : ipx_address) (ecb : ipx_ecb)
    (h : ¬ int16_of (ecb.fragments.map List.length).sum > (MTU : Int)) :
    SendPacket local_addr ecb =
      ({ ecb with in_use := false, completion_code := 0 }, 0,
       [(writeBytes (writeBytes ecb.fragments.flatten 18
          (encode_address { local_addr with socket := ecb.socket })) 2
          (u16be ((ecb.fragments.map List.length).sum % 65536))).take
          ((ecb.fragments.map List.length).sum % 65536)]) := by
  simp only [SendPacket, if_neg h]

theorem int16_of_eq_of_lt (n : Nat) (h : n < 32768) : int16_of n = (n : Int) := by
  unfold int16_of
  rw [Nat.mod_eq_of_lt (by omega), if_pos h]

theorem int16_of_gt_MTU_iff (n : Nat) (h : n < 32768) :
    int16_of n > (MTU : Int) ↔ n > MTU := by
  rw [int16_of_eq_of_lt n h]
  constructor
  · intro hgt
    omega
  · intro hgt
    omega

theorem PacketReceived_eq_short (st : EngineState) (d : List Nat)
    (h : d.length < 30) : PacketReceived st d = st := by
  simp only [PacketReceived, if_pos h]

theorem PacketReceived_eq_reg (st : EngineState) (d : List Nat)
    (hlen : ¬ d.length < 30) (hs : (decode_header d).src.socket = 2)
    (hd2 : (decode_header d).dest.socket = 2) :
    PacketReceived st d = { st with registered := true, local_addr := (decode_header d).dest } := by
  simp only [PacketReceived, if_neg hlen, if_pos (And.intro hs hd2)]

theorem PacketReceived_eq_dispatch (st : EngineState) (d : List Nat)
    (hlen : ¬ d.length < 30)
    (hns : ¬ ((decode_header d).src.socket = 2 ∧ (decode_header d).dest.socket = 2)) :
    PacketReceived st d = { st with sockets := (RxDispatch st.sockets d).1 } := by
  simp only [PacketReceived, if_neg hlen, if_neg hns]

/-
Claim theorems.
-/

/-- C8: every inbound datagram shorter than 30 bytes (the header size) is
dropped silently by the receive path: the engine state - every socket
queue, every queued ECB, the registered flag and the local address - is
returned unchanged, and no error is surfaced (PacketReceived has no error
output at all). -/
theorem PacketReceived_short_drop (st : EngineState) (d : List Nat)
    (h : d.length < 30) : PacketReceived st d = st :=
  PacketReceived_eq_short st d h

theorem PacketReceived_short_drop_witness :
    ([5, 5, 5] : List Nat).length < 30 ∧
    PacketReceived exampleState [5, 5, 5] = exampleState :=
  ⟨by decide, PacketReceived_short_drop exampleState [5, 5, 5] (by decide)⟩

/-- C9: the registration control packet transmitted by Connect is exactly
the 30-byte header with checksum 0xffff, length 0x1e, transport_control 0,
type 0xff, dest.socket = src.socket = 2 laid out in network byte order,
all dest and src network and node bytes zero, no payload, addressed to the
configured relay server address and port. -/
theorem SendRegistration_wire_format (server : List Nat) (port : Nat) :
    (SendRegistration server port).1 = (server, port) ∧
    (SendRegistration server port).2.length = 30 ∧
    (SendRegistration server port).2 =
      [0xff, 0xff, 0x00, 0x1e, 0x00, 0xff,
       0, 0, 0, 0, 0, 0, 0, 0, 0, 0, 0x00, 0x02,
       0, 0, 0, 0, 0, 0, 0, 0, 0, 0, 0x00, 0x02] ∧
    registration_header.checksum = 0xffff ∧
    registration_header.length = 0x1e ∧
    registration_header.transport_control = 0 ∧
    registration_header.type = 0xff ∧
    registration_header.dest.socket = 2 ∧
    registration_header.src.socket = 2 ∧
    registration_header.dest.network = [0, 0, 0, 0] ∧
    registration_header.dest.node = [0, 0, 0, 0, 0, 0] ∧
    registration_header.src.network = [0, 0, 0, 0] ∧
    registration_header.src.node = [0, 0, 0, 0, 0, 0] :=
  ⟨rfl, rfl, rfl, rfl, rfl, rfl, rfl, rfl, rfl, rfl, rfl, rfl, rfl⟩

/-- C10: whenever OpenSocket fails (duplicate socket or table full) it
returns before writing any slot, so the table is exactly as before the
call and every lookup gives the same result as before. -/
theorem OpenSocket_failure_preserves_table (tbl : List ipx_socket) (req : Nat)
    (h : (OpenSocket tbl req).2 = openResult.duplicateSocket ∨
         (OpenSocket tbl req).2 = openResult.tableFull) :
    (OpenSocket tbl req).1 = tbl ∧
    ∀ m, FindSocket (OpenSocket tbl req).1 m = FindSocket tbl m := by
  rcases OpenSocket_cases tbl req with ⟨n, i, hfs, heq⟩ | heq | heq
  · rw [heq] at h
    rcases h with h | h <;> simp at h
  · rw [heq]
    exact ⟨rfl, fun m => rfl⟩
  · rw [heq]
    exact ⟨rfl, fun m => rfl⟩

theorem OpenSocket_failure_preserves_table_witness :
    ((OpenSocket fullTbl 9).2 = openResult.duplicateSocket ∨
     (OpenSocket fullTbl 9).2 = openResult.tableFull) ∧
    ((OpenSocket fullTbl 9).1 = fullTbl ∧
     ∀ m, FindSocket (OpenSocket fullTbl 9).1 m = FindSocket fullTbl m) :=
  ⟨by decide, OpenSocket_failure_preserves_table fullTbl 9 (by decide)⟩

/-- C7 counterexample: on a table already holding 8 distinct open sockets,
requesting a number that is already open fails with duplicateSocket (the
duplicate check runs first), not tableFull - refuting the claim that a
full table fails with TableFull regardless of the requested number. -/
theorem OpenSocket_duplicate_precedes_full :
    (OpenSocket fullTbl 1).2 = openResult.duplicateSocket ∧
    openResult.duplicateSocket ≠ openResult.tableFull :=
  ⟨by decide, by decide⟩

/-- C7 amended: OpenSocket fails with duplicateSocket exactly when the
requested number is nonzero and already open (this check precedes the
free-slot check); it fails with tableFull exactly when the duplicate
condition does not hold and no free slot exists; in every other case it
succeeds. -/
theorem OpenSocket_result_spec (tbl : List ipx_socket) (req : Nat) :
    ((OpenSocket tbl req).2 = openResult.duplicateSocket ↔
       req ≠ 0 ∧ FindSocket tbl req ≠ none) ∧
    ((OpenSocket tbl req).2 = openResult.tableFull ↔
       ¬(req ≠ 0 ∧ FindSocket tbl req ≠ none) ∧ FindSocket tbl 0 = none) ∧
    ((∃ n, (OpenSocket tbl req).2 = openResult.ok n) ↔
       ¬(req ≠ 0 ∧ FindSocket tbl req ≠ none) ∧ FindSocket tbl 0 ≠ none) := by
  by_cases hreq : req = 0
  · subst hreq
    have hfree := (ProbeSocknum_spec tbl (tbl.length + 1) 0x4002 (probe_window_free tbl 0x4002)).1
    have hcond : (FindSocket tbl (ProbeSocknum tbl (tbl.length + 1) 0x4002)).isSome = false := by
      rw [hfree]
      rfl
    cases h0 : FindSocket tbl 0 with
    | none =>
        have he : OpenSocket tbl 0 = (tbl, openResult.tableFull) := by
          simp only [OpenSocket, if_true]
          rw [hcond, if_neg (by simp), h0]
        rw [he]
        refine ⟨?_, ?_, ?_⟩ <;> simp [h0]
    | some i =>
        have he : OpenSocket tbl 0 =
            (tbl.set i ⟨ProbeSocknum tbl (tbl.length + 1) 0x4002, []⟩,
             openResult.ok (ProbeSocknum tbl (tbl.length + 1) 0x4002)) := by
          simp only [OpenSocket, if_true]
          rw [hcond, if_neg (by simp), h0]
        rw [he]
        refine ⟨?_, ?_, ?_⟩ <;> simp [h0]
  · by_cases hdup : (FindSocket tbl req).isSome
    · have hne : FindSocket tbl req ≠ none := by
        intro hcon
        rw [hcon] at hdup
        simp at hdup
      have he : OpenSocket tbl req = (tbl, openResult.duplicateSocket) := by
        simp only [OpenSocket]
        rw [if_neg hreq, if_pos hdup]
      rw [he]
      refine ⟨?_, ?_, ?_⟩ <;> simp [hreq, hne]
    · have hn : FindSocket tbl req = none := by
        cases hfs : FindSocket tbl req with
        | none => rfl
        | some v => rw [hfs] at hdup; simp at hdup
      cases h0 : FindSocket tbl 0 with
      | none =>
          have he : OpenSocket tbl req = (tbl, openResult.tableFull) := by
            simp only [OpenSocket]
            rw [if_neg hreq, if_neg hdup, h0]
          rw [he]
          refine ⟨?_, ?_, ?_⟩ <;> simp [hreq, hn, h0]
      | some i =>
          have he : OpenSocket tbl req = (tbl.set i ⟨req, []⟩, openResult.ok req) := by
            simp only [OpenSocket]
            rw [if_neg hreq, if_neg hdup, h0]
          rw [he]
          refine ⟨?_, ?_, ?_⟩ <;> simp [hreq, hn, h0]

/-- C5 amended: Listen on a socket that is not open sets completion_code
to 0xff (Failure), leaves in_use as the caller set it, returns failure,
and modifies no socket queue; Listen on an open socket pushes the ECB onto
the front of that socket's queue (LIFO), sets in_use = true, returns
success, and leaves completion_code unchanged (the source never writes a
Pending value on the success path). -/
theorem ListenPacket_spec (tbl : List ipx_socket) (ecb : ipx_ecb) :
    (FindSocket tbl ecb.socket = none →
       (ListenPacket tbl ecb).1 = tbl ∧
       (ListenPacket tbl ecb).2.1.completion_code = 0xff ∧
       (ListenPacket tbl ecb).2.1.in_use = ecb.in_use ∧
       (ListenPacket tbl ecb).2.2 = 0xff) ∧
    (∀ i, FindSocket tbl ecb.socket = some i →
       (ListenPacket tbl ecb).2.2 = 0 ∧
       (ListenPacket tbl ecb).2.1 = { ecb with in_use := true } ∧
       (ListenPacket tbl ecb).2.1.completion_code = ecb.completion_code ∧
       (ListenPacket tbl ecb).1 =
         tbl.set i { tbl.getD i ⟨0, []⟩ with
           ecbs := { ecb with in_use := true } :: (tbl.getD i ⟨0, []⟩).ecbs }) := by
  constructor
  · intro h
    rw [ListenPacket_eq_none tbl ecb h]
    exact ⟨rfl, rfl, rfl, rfl⟩
  · intro i h
    rw [ListenPacket_eq_some tbl ecb i h]
    exact ⟨rfl, rfl, rfl, rfl⟩

theorem ListenPacket_spec_witness :
    (ListenPacket fullTbl listenEcbA).2.2 = 0 ∧
    (ListenPacket fullTbl listenEcbA).2.1 = { listenEcbA with in_use := true } ∧
    (ListenPacket fullTbl listenEcbA).2.1.completion_code = listenEcbA.completion_code ∧
    (ListenPacket fullTbl listenEcbA).1 =
      fullTbl.set 0 { fullTbl.getD 0 ⟨0, []⟩ with
        ecbs := { listenEcbA with in_use := true } :: (fullTbl.getD 0 ⟨0, []⟩).ecbs } :=
  (ListenPacket_spec fullTbl listenEcbA).2 0 (by decide)

/-- C5 counterexample: Listen on an open socket does not set the
completion code to any fixed Pending value - it leaves the caller's value
in place: two ECBs posted with completion codes 5 and 7 keep exactly those
codes, so no single Pending constant is written. -/
theorem ListenPacket_leaves_completion_code :
    (ListenPacket fullTbl { in_use := false, completion_code := 5, socket := 1, fragments := [] }).2.1.completion_code = 5 ∧
    (ListenPacket fullTbl { in_use := false, completion_code := 7, socket := 1, fragments := [] }).2.1.completion_code = 7 ∧
    (5 : Nat) ≠ 7 :=
  ⟨by decide, by decide, by decide⟩

/-- C2 amended: SendPacket fails with completion code 0xff (TooLarge),
in_use = false and transmits nothing exactly when the fragment-length
total, accumulated in a 16-bit signed int (int16_of of the true sum),
exceeds MTU = 576; for totals below 32768 this signed check agrees with
the plain sum > 576 of the original claim, but a total of 32768..65535
wraps negative and bypasses the check, in which case the packet is still
transmitted exactly once with code 0 (Success).  When the true sum is at
most 576 the transmitted packet is the in-order concatenation of the
fragments with the header src/length fields patched, its bytes beyond the
30-byte header exactly those of the concatenation, with completion code 0
and in_use = false set before returning, so the ECB reflects the outcome
synchronously. -/
theorem SendPacket_mtu_spec (local_addr : ipx_address) (ecb : ipx_ecb)
    (hn : local_addr.network.length = 4) (hd : local_addr.node.length = 6) :
    (SendPacket local_addr ecb).1.in_use = false ∧
    (int16_of (ecb.fragments.map List.length).sum > (MTU : Int) ↔
       (SendPacket local_addr ecb).2.2 = [] ∧
       (SendPacket local_addr ecb).1.completion_code = 0xff ∧
       (SendPacket local_addr ecb).2.1 = 0xff) ∧
    ((ecb.fragments.map List.length).sum ≤ MTU →
       ∃ p, (SendPacket local_addr ecb).2.2 = [p] ∧
         (SendPacket local_addr ecb).1.completion_code = 0 ∧
         (SendPacket local_addr ecb).2.1 = 0 ∧
         p.length = (ecb.fragments.map List.length).sum ∧
         ∀ k, 30 ≤ k → p.getD k 0 = ecb.fragments.flatten.getD k 0) ∧
    (¬ int16_of (ecb.fragments.map List.length).sum > (MTU : Int) →
       ∃ p, (SendPacket local_addr ecb).2.2 = [p] ∧
         (SendPacket local_addr ecb).1.completion_code = 0 ∧
         (SendPacket local_addr ecb).2.1 = 0 ∧
         p.length = (ecb.fragments.map List.length).sum % 65536) ∧
    ((ecb.fragments.map List.length).sum < 32768 →
       (int16_of (ecb.fragments.map List.length).sum > (MTU : Int) ↔
          (ecb.fragments.map List.length).sum > MTU)) := by
  have h5 : (ecb.fragments.map List.length).sum < 32768 →
      (int16_of (ecb.fragments.map List.length).sum > (MTU : Int) ↔
        (ecb.fragments.map List.length).sum > MTU) :=
    fun hlt => int16_of_gt_MTU_iff _ hlt
  by_cases hgt : int16_of (ecb.fragments.map List.length).sum > (MTU : Int)
  · rw [SendPacket_eq_of_gt local_addr ecb hgt]
    refine ⟨rfl, ⟨fun _ => ⟨rfl, rfl, rfl⟩, fun _ => hgt⟩, ?_, ?_, h5⟩
    · intro hle
      exfalso
      have hlt : (ecb.fragments.map List.length).sum < 32768 := by
        simp only [MTU] at hle
        omega
      have hgt2 := (int16_of_gt_MTU_iff _ hlt).mp hgt
      simp only [MTU] at hle hgt2
      omega
    · intro hcon
      exact absurd hgt hcon
  · rw [SendPacket_eq_of_le local_addr ecb hgt]
    have hlen2 : (writeBytes (writeBytes ecb.fragments.flatten 18
        (encode_address { local_addr with socket := ecb.socket })) 2
        (u16be ((ecb.fragments.map List.length).sum % 65536))).length =
        (ecb.fragments.map List.length).sum := by
      rw [writeBytes_length, writeBytes_length]
      exact List.length_flatten ecb.fragments
    refine ⟨rfl, ?_, ?_, ?_, h5⟩
    · constructor
      · intro hcon
        exact absurd hcon hgt
      · rintro ⟨hnil, -, -⟩
        exact absurd hnil (by simp)
    · intro hle
      have hmod : (ecb.fragments.map List.length).sum % 65536 =
          (ecb.fragments.map List.length).sum := by
        apply Nat.mod_eq_of_lt
        simp only [MTU] at hle
        omega
      have hp : (writeBytes (writeBytes ecb.fragments.flatten 18
          (encode_address { local_addr with socket := ecb.socket })) 2
          (u16be ((ecb.fragments.map List.length).sum % 65536))).take
          ((ecb.fragments.map List.length).sum % 65536) =
          writeBytes (writeBytes ecb.fragments.flatten 18
            (encode_address { local_addr with socket := ecb.socket })) 2
            (u16be ((ecb.fragments.map List.length).sum % 65536)) :=
        List.take_of_length_le (by rw [hlen2, hmod])
      refine ⟨_, rfl, rfl, rfl, ?_, ?_⟩
      · rw [hp]
        exact hlen2
      · intro k hk
        rw [hp]
        have henc : (encode_address { local_addr with socket := ecb.socket }).length = 12 := by
          simp [encode_address, u16be, hn, hd]
        rw [writeBytes_getD_of_le _ _ _ _ (by simp only [u16be, List.length_cons, List.length_nil]; omega)]
        rw [writeBytes_getD_of_le _ _ _ _ (by rw [henc]; omega)]
    · intro _
      refine ⟨_, rfl, rfl, rfl, ?_⟩
      rw [List.length_take, hlen2]
      exact Nat.min_eq_left (Nat.mod_le _ _)

theorem SendPacket_mtu_spec_witness :
    exampleLocal.network.length = 4 ∧ exampleLocal.node.length = 6 ∧
    (exampleSendEcb.fragments.map List.length).sum ≤ MTU ∧
    (∃ p, (SendPacket exampleLocal exampleSendEcb).2.2 = [p] ∧
      (SendPacket exampleLocal exampleSendEcb).1.completion_code = 0 ∧
      (SendPacket exampleLocal exampleSendEcb).2.1 = 0 ∧
      p.length = (exampleSendEcb.fragments.map List.length).sum ∧
      ∀ k, 30 ≤ k → p.getD k 0 = exampleSendEcb.fragments.flatten.getD k 0) :=
  ⟨rfl, rfl, by decide,
   (SendPacket_mtu_spec exampleLocal exampleSendEcb rfl rfl).2.2.1 (by decide)⟩

/-- C2 counterexample: an ECB whose single fragment has declared size
40000 - true fragment-length sum 40000, far above the 576-byte MTU - is
nevertheless transmitted (exactly one datagram) with completion code 0
(Success, not the claimed TooLarge): the source's 16-bit int accumulator
wraps 40000 to the signed value -25536, which is not greater than 576, so
the size > MTU check passes and the claimed iff is false of the program. -/
theorem SendPacket_overflow_bypasses_mtu :
    (overflowEcb.fragments.map List.length).sum = 40000 ∧
    40000 > MTU ∧
    (SendPacket exampleLocal overflowEcb).2.2.length = 1 ∧
    (SendPacket exampleLocal overflowEcb).1.completion_code = 0 ∧
    (SendPacket exampleLocal overflowEcb).2.1 = 0 ∧
    (0 : Nat) ≠ 0xff := by
  have hsum : (overflowEcb.fragments.map List.length).sum = 40000 := by
    simp only [overflowEcb, List.map_cons, List.map_nil, List.length_replicate,
      List.sum_cons, List.sum_nil, Nat.add_zero]
  have hcheck : ¬ int16_of (overflowEcb.fragments.map List.length).sum > (MTU : Int) := by
    rw [hsum]
    decide
  rw [SendPacket_eq_of_le exampleLocal overflowEcb hcheck]
  exact ⟨hsum, by decide, rfl, rfl, rfl, by decide⟩

/-- C3 amended: the registered flag never reverts from true to false
during the receive path; but the source applies the registration branch to
every packet with src.socket = 2 and dest.socket = 2 without consulting
the registered flag, so such a packet always overwrites the local address
(even after registration) and is never handed to Receive Dispatch; any
other packet leaves the registered flag and the local address unchanged. -/
theorem PacketReceived_registration_spec (st : EngineState) (d : List Nat) :
    (st.registered = true → (PacketReceived st d).registered = true) ∧
    (¬ d.length < 30 → (decode_header d).src.socket = 2 → (decode_header d).dest.socket = 2 →
       PacketReceived st d = { st with registered := true, local_addr := (decode_header d).dest }) ∧
    ((d.length < 30 ∨ ¬ ((decode_header d).src.socket = 2 ∧ (decode_header d).dest.socket = 2)) →
       (PacketReceived st d).registered = st.registered ∧
       (PacketReceived st d).local_addr = st.local_addr) := by
  by_cases hlen : d.length < 30
  · rw [PacketReceived_eq_short st d hlen]
    exact ⟨fun h => h, fun hc => absurd hlen hc, fun _ => ⟨rfl, rfl⟩⟩
  · by_cases hpat : (decode_header d).src.socket = 2 ∧ (decode_header d).dest.socket = 2
    · rw [PacketReceived_eq_reg st d hlen hpat.1 hpat.2]
      refine ⟨fun _ => rfl, fun _ _ _ => rfl, ?_⟩
      rintro (hc | hc)
      · exact absurd hc hlen
      · exact absurd hpat hc
    · rw [PacketReceived_eq_dispatch st d hlen hpat]
      refine ⟨fun h => h, ?_, fun _ => ⟨rfl, rfl⟩⟩
      intro _ hs hd2
      exact absurd ⟨hs, hd2⟩ hpat

theorem PacketReceived_registration_spec_witness :
    PacketReceived exampleState exampleRegReply =
      { exampleState with registered := true, local_addr := (decode_header exampleRegReply).dest } :=
  (PacketReceived_registration_spec exampleState exampleRegReply).2.1
    (by decide) (by decide) (by decide)

/-- C3 counterexample: in a state that is already registered, a further
inbound packet matching the registration pattern (src.socket = 2,
dest.socket = 2) still overwrites the session's local address - refuting
the claim that once registered the local address is never modified again
(the source has no not-yet-registered guard on the registration branch). -/
theorem PacketReceived_overwrites_local_addr :
    exampleState.registered = true ∧
    (PacketReceived exampleState exampleRegReply).local_addr ≠ exampleState.local_addr :=
  ⟨rfl, by decide⟩

/-- C4 (Deliver is modelled from the spec, see its doc comment): Deliver
returns false and changes nothing when the socket number is 0, not open,
or its queue is empty; otherwise it removes exactly the ECB at the front
of that socket's queue, fills its fragment buffers from the payload in
fragment order up to their capacity, sets completion code 0 (Success) and
in_use = false, and returns true - so at most one queued ECB is completed
per inbound packet.  After Listen A then Listen B on the same open socket
and one delivery, B (the most recently posted) is the completed ECB and A
is still at the head of the remaining queue. -/
theorem Deliver_spec (tbl : List ipx_socket) (sock : Nat) (payload : List Nat) :
    ((sock = 0 ∨ FindSocket tbl sock = none ∨
        (∃ i, FindSocket tbl sock = some i ∧ (tbl.getD i ⟨0, []⟩).ecbs = [])) →
       Deliver tbl sock payload = (tbl, none, false)) ∧
    (∀ i e rest, ¬ sock = 0 → FindSocket tbl sock = some i →
       (tbl.getD i ⟨0, []⟩).ecbs = e :: rest →
       Deliver tbl sock payload =
         (tbl.set i { tbl.getD i ⟨0, []⟩ with ecbs := rest },
          some { e with fragments := fillFragments e.fragments payload, completion_code := 0, in_use := false },
          true)) ∧
    (∀ i A B, ¬ sock = 0 → FindSocket tbl sock = some i → A.socket = sock → B.socket = sock →
       (Deliver (ListenPacket (ListenPacket tbl A).1 B).1 sock payload).2.1 =
         some { B with in_use := false, completion_code := 0, fragments := fillFragments B.fragments payload } ∧
       ((Deliver (ListenPacket (ListenPacket tbl A).1 B).1 sock payload).1.getD i ⟨0, []⟩).ecbs =
         { A with in_use := true } :: (tbl.getD i ⟨0, []⟩).ecbs) := by
  refine ⟨?_, ?_, ?_⟩
  · rintro (h0 | hnone | ⟨i, hsome, hempty⟩)
    · exact Deliver_eq_zero tbl sock payload h0
    · by_cases h0 : sock = 0
      · exact Deliver_eq_zero tbl sock payload h0
      · exact Deliver_eq_notfound tbl sock payload h0 hnone
    · by_cases h0 : sock = 0
      · exact Deliver_eq_zero tbl sock payload h0
      · exact Deliver_eq_empty tbl sock payload i h0 hsome hempty
  · intro i e rest h0 hf hq
    exact Deliver_eq_pop tbl sock payload i e rest h0 hf hq
  · intro i A B h0 hf hA hB
    have hfA : FindSocket tbl A.socket = some i := by rw [hA]; exact hf
    have hlenA : i < tbl.length := FindSocket_lt_length tbl sock i hf
    have ht1 : (ListenPacket tbl A).1 =
        tbl.set i { tbl.getD i ⟨0, []⟩ with
          ecbs := { A with in_use := true } :: (tbl.getD i ⟨0, []⟩).ecbs } := by
      rw [ListenPacket_eq_some tbl A i hfA]
    have ht1len : (ListenPacket tbl A).1.length = tbl.length := by
      rw [ht1, List.length_set]
    have hfs1 : FindSocket (ListenPacket tbl A).1 sock = some i := by
      have hx : ({ tbl.getD i ⟨0, []⟩ with
          ecbs := { A with in_use := true } :: (tbl.getD i ⟨0, []⟩).ecbs } : ipx_socket).socket =
          (tbl.getD i ⟨0, []⟩).socket := rfl
      rw [ht1, FindSocket_set_preserve tbl i _ sock hx]
      exact hf
    have ht1get : (ListenPacket tbl A).1.getD i ⟨0, []⟩ =
        { tbl.getD i ⟨0, []⟩ with
          ecbs := { A with in_use := true } :: (tbl.getD i ⟨0, []⟩).ecbs } := by
      rw [ht1]
      exact getD_set_self tbl i _ _ hlenA
    have hfB : FindSocket (ListenPacket tbl A).1 B.socket = some i := by
      rw [hB]
      exact hfs1
    have ht2 : (ListenPacket (ListenPacket tbl A).1 B).1 =
        (ListenPacket tbl A).1.set i { (ListenPacket tbl A).1.getD i ⟨0, []⟩ with
          ecbs := { B with in_use := true } :: ((ListenPacket tbl A).1.getD i ⟨0, []⟩).ecbs } := by
      rw [ListenPacket_eq_some (ListenPacket tbl A).1 B i hfB]
    have ht2len : (ListenPacket (ListenPacket tbl A).1 B).1.length = tbl.length := by
      rw [ht2, List.length_set, ht1len]
    have hfs2 : FindSocket (ListenPacket (ListenPacket tbl A).1 B).1 sock = some i := by
      have hx : ({ (ListenPacket tbl A).1.getD i ⟨0, []⟩ with
          ecbs := { B with in_use := true } :: ((ListenPacket tbl A).1.getD i ⟨0, []⟩).ecbs } : ipx_socket).socket =
          ((ListenPacket tbl A).1.getD i ⟨0, []⟩).socket := rfl
      rw [ht2, FindSocket_set_preserve (ListenPacket tbl A).1 i _ sock hx]
      exact hfs1
    have ht2get : (ListenPacket (ListenPacket tbl A).1 B).1.getD i ⟨0, []⟩ =
        { (ListenPacket tbl A).1.getD i ⟨0, []⟩ with
          ecbs := { B with in_use := true } :: ((ListenPacket tbl A).1.getD i ⟨0, []⟩).ecbs } := by
      rw [ht2]
      exact getD_set_self (ListenPacket tbl A).1 i _ _ (by rw [ht1len]; exact hlenA)
    have hq2 : ((ListenPacket (ListenPacket tbl A).1 B).1.getD i ⟨0, []⟩).ecbs =
        { B with in_use := true } :: ({ A with in_use := true } :: (tbl.getD i ⟨0, []⟩).ecbs) := by
      rw [ht2get, ht1get]
    have hdel := Deliver_eq_pop (ListenPacket (ListenPacket tbl A).1 B).1 sock payload i
        { B with in_use := true } ({ A with in_use := true } :: (tbl.getD i ⟨0, []⟩).ecbs)
        h0 hfs2 hq2
    constructor
    · rw [hdel]
    · rw [hdel]
      have hset : ((ListenPacket (ListenPacket tbl A).1 B).1.set i
            { (ListenPacket (ListenPacket tbl A).1 B).1.getD i ⟨0, []⟩ with
              ecbs := { A with in_use := true } :: (tbl.getD i ⟨0, []⟩).ecbs }).getD i ⟨0, []⟩ =
          { (ListenPacket (ListenPacket tbl A).1 B).1.getD i ⟨0, []⟩ with
            ecbs := { A with in_use := true } :: (tbl.getD i ⟨0, []⟩).ecbs } :=
        getD_set_self (ListenPacket (ListenPacket tbl A).1 B).1 i _ _ (by rw [ht2len]; exact hlenA)
      rw [hset]

theorem Deliver_spec_witness :
    (Deliver (ListenPacket (ListenPacket fullTbl listenEcbA).1 listenEcbB).1 1 examplePayload).2.1 =
      some { listenEcbB with in_use := false, completion_code := 0, fragments := fillFragments listenEcbB.fragments examplePayload } ∧
    ((Deliver (ListenPacket (ListenPacket fullTbl listenEcbA).1 listenEcbB).1 1 examplePayload).1.getD 0 ⟨0, []⟩).ecbs =
      { listenEcbA with in_use := true } :: (fullTbl.getD 0 ⟨0, []⟩).ecbs :=
  (Deliver_spec fullTbl 1 examplePayload).2.2 0 listenEcbA listenEcbB
    (by decide) (by decide) rfl rfl

/-- C6: on any socket-table state with at least one free slot, OpenSocket
with requested number 0 assigns and returns the smallest number n, with
n at least 0x4002, that is not currently open - it probes 0x4002,
0x4002+1, ... skipping every number already open - and initializes the
free slot with that number and an empty receive queue.  On an empty table
this gives 0x4002, then 0x4002+1, and so on, as each assigned number
becomes open. -/
theorem OpenSocket_auto_assign (tbl : List ipx_socket) (j : Nat)
    (hfree_slot : FindSocket tbl 0 = some j) :
    ∃ n, OpenSocket tbl 0 = (tbl.set j ⟨n, []⟩, openResult.ok n) ∧
      0x4002 ≤ n ∧ FindSocket tbl n = none ∧
      ∀ m, 0x4002 ≤ m → m < n → FindSocket tbl m ≠ none := by
  have hspec := ProbeSocknum_spec tbl (tbl.length + 1) 0x4002 (probe_window_free tbl 0x4002)
  have hcond : (FindSocket tbl (ProbeSocknum tbl (tbl.length + 1) 0x4002)).isSome = false := by
    rw [hspec.1]
    rfl
  refine ⟨ProbeSocknum tbl (tbl.length + 1) 0x4002, ?_, hspec.2.1, hspec.1, hspec.2.2⟩
  simp only [OpenSocket, if_true]
  rw [hcond, if_neg (by simp), hfree_slot]

theorem OpenSocket_auto_assign_witness :
    FindSocket initTbl 0 = some 0 ∧
    (∃ n, OpenSocket initTbl 0 = (initTbl.set 0 ⟨n, []⟩, openResult.ok n) ∧
      0x4002 ≤ n ∧ FindSocket initTbl n = none ∧
      ∀ m, 0x4002 ≤ m → m < n → FindSocket initTbl m ≠ none) :=
  ⟨by decide, OpenSocket_auto_assign initTbl 0 (by decide)⟩

/-- C1 counterexample: against a transport that never replies (and with 1
timer tick per time unit), the registration handshake of DBIPX_Connect
transmits the control packet exactly 5 times, not the 6 (one before the
initial wait plus one per retry round) that the claim asserts: the source
sends nothing before the initial Delay - its first transmission happens at
the first retry-loop iteration. -/
theorem DBIPX_Connect_sends_five_not_six :
    (DBIPX_Connect [127, 0, 0, 1] 213 1 (fun _ => false)).2 = 5 ∧ (5 : Nat) ≠ 6 :=
  ⟨by decide, by decide⟩

/-- C1 amended: for every transport behavior env (env t = a registration
reply observed while polling during tick t) and every tick rate tps of at
least 1: the handshake waits 1 time unit (tps ticks) polling without
sending, then runs up to REG_ATTEMPTS = 5 retry rounds of 1 time unit
each, sending the control packet at the start of each round; it succeeds
exactly when a reply with src.socket = 2 and dest.socket = 2 is observed
during the 6 time units; it never transmits more than 5 times; and when no
reply ever arrives it transmits exactly 5 times and fails fatally with an
error naming the server address and port. -/
theorem DBIPX_Connect_handshake_spec (server : List Nat) (port tps : Nat)
    (env : Nat → Bool) (htps : 0 < tps) :
    ((DBIPX_Connect server port tps env).1 = connectOutcome.ok ↔
       ∃ t, t < 6 * tps ∧ env t = true) ∧
    (DBIPX_Connect server port tps env).2 ≤ REG_ATTEMPTS ∧
    ((∀ t, t < 6 * tps → env t = false) →
       DBIPX_Connect server port tps env = (connectOutcome.fatal server port, REG_ATTEMPTS)) := by
  have hcount : (List.range (REG_ATTEMPTS * tps)).countP (fun k => decide ((0 + k) % tps = 0)) = REG_ATTEMPTS := by
    have hc := countP_range_mul tps htps REG_ATTEMPTS
    have hfun : (fun k => decide ((0 + k) % tps = 0)) = (fun k : Nat => decide (k % tps = 0)) := by
      funext k
      rw [Nat.zero_add]
    rw [hfun]
    exact hc
  refine ⟨?_, ?_, ?_⟩
  · simp only [DBIPX_Connect]
    constructor
    · intro hok
      have hr : (connectLoop env tps (REG_ATTEMPTS * tps) 0 (pollDelay env 0 tps false) 0).1 = true := by
        by_contra hcon
        rw [Bool.not_eq_true] at hcon
        rw [hcon] at hok
        simp at hok
      rcases (connectLoop_fst_iff env tps (REG_ATTEMPTS * tps) 0 (pollDelay env 0 tps false) 0).mp hr with hreg0 | ⟨k, hk, he⟩
      · rcases (pollDelay_eq_true_iff env tps 0 false).mp hreg0 with hfalse | ⟨k, hk, he⟩
        · simp at hfalse
        · exact ⟨k, by omega, by simpa using he⟩
      · refine ⟨tps + k, by simp only [REG_ATTEMPTS] at hk; omega, ?_⟩
        have : tps + 0 + k = tps + k := by omega
        rw [this] at he
        exact he
    · rintro ⟨t, ht, he⟩
      have hr : (connectLoop env tps (REG_ATTEMPTS * tps) 0 (pollDelay env 0 tps false) 0).1 = true := by
        rw [connectLoop_fst_iff]
        by_cases hlt : t < tps
        · left
          rw [pollDelay_eq_true_iff]
          exact Or.inr ⟨t, hlt, by simpa using he⟩
        · right
          refine ⟨t - tps, by simp only [REG_ATTEMPTS]; omega, ?_⟩
          have : tps + 0 + (t - tps) = t := by omega
          rw [this]
          exact he
      rw [hr]
      simp
  · simp only [DBIPX_Connect]
    have hle := connectLoop_sends_le env tps (REG_ATTEMPTS * tps) 0 (pollDelay env 0 tps false) 0
    rw [hcount] at hle
    simpa using hle
  · intro hnone
    have hreg0 : pollDelay env 0 tps false = false := by
      by_contra hcon
      rw [Bool.not_eq_false] at hcon
      rcases (pollDelay_eq_true_iff env tps 0 false).mp hcon with hfalse | ⟨k, hk, he⟩
      · simp at hfalse
      · have : (0 : Nat) + k < 6 * tps := by omega
        rw [hnone (0 + k) this] at he
        simp at he
    have henv : ∀ k, k < REG_ATTEMPTS * tps → env (tps + 0 + k) = false := by
      intro k hk
      apply hnone
      simp only [REG_ATTEMPTS] at hk
      omega
    simp only [DBIPX_Connect, hreg0]
    rw [connectLoop_env_false env tps (REG_ATTEMPTS * tps) 0 0 henv, hcount]
    rfl

theorem DBIPX_Connect_handshake_spec_witness :
    (0 : Nat) < 1 ∧
    (((DBIPX_Connect [10, 0, 0, 1] 666 1 (fun _ => false)).1 = connectOutcome.ok ↔
        ∃ t, t < 6 * 1 ∧ (fun _ : Nat => false) t = true) ∧
     (DBIPX_Connect [10, 0, 0, 1] 666 1 (fun _ => false)).2 ≤ REG_ATTEMPTS ∧
     ((∀ t, t < 6 * 1 → (fun _ : Nat => false) t = false) →
        DBIPX_Connect [10, 0, 0, 1] 666 1 (fun _ => false) =
          (connectOutcome.fatal [10, 0, 0, 1] 666, REG_ATTEMPTS))) :=
  ⟨by decide, DBIPX_Connect_handshake_spec [10, 0, 0, 1] 666 1 (fun _ => false) (by decide)⟩
